import Mathlib

/-!
Verification of the real-time notification core of the FINDuS HR portal
(`backend/app/core/websocket_manager.py`, `backend/app/core/event_emitter.py`,
`backend/app/core/chat_manager.py`, `backend/app/routers/ws.py`).

Modelling conventions
---------------------
* A live WebSocket transport is identified by a handle `WS := Nat`.
  The health of transports is a parameter `ok : WS → Bool`:
  `ok w = false` models `ws.send_json` raising an exception for handle `w`
  (the exception is always caught by the `except Exception:` clause in the
  source, which is why the Lean send functions are total and carry no
  error channel).
* Python `dict` objects become association lists (`List (String × α)`):
  insertion keeps the original key position, lookup finds the first match,
  `pop` removes the entry — exactly the observable dict behaviour given
  its unique keys.  Python `set` objects become `List String` with
  membership-guarded insertion.
* Broadcast operations return the successor registry state paired with the
  list of user ids to whose transport the envelope was actually written
  (event type / payload / timestamp are the same for every recipient of
  one dispatch, so recording the recipient ids captures delivery).
* The Redis broker is a parameter: a publish attempt is an
  `Except String Unit` value, `Except.error` modelling the broker call
  raising.
-/

set_option autoImplicit false

/-- Transport handle standing for one live WebSocket object. -/
abbrev WS := Nat

/-- First-match lookup in an association list: `d.get(key)` on a Python
dict represented as its (unique-keyed) item list. -/
def lookupA {α : Type} : List (String × α) → String → Option α
  | [], _ => none
  | (k, v) :: rest, key => if k = key then some v else lookupA rest key

/-- `d[key] = v` on a Python dict: replace the value at the first
occurrence of `key`, keeping its position, or append a fresh entry. -/
def updateA {α : Type} : List (String × α) → String → α → List (String × α)
  | [], key, v => [(key, v)]
  | (k, w) :: rest, key, v =>
    if k = key then (key, v) :: rest else (k, w) :: updateA rest key v

/-- `s.add(x)` on a Python set represented as a duplicate-free list. -/
def setAdd (s : List String) (x : String) : List String :=
  if x ∈ s then s else s ++ [x]

/-- `d.setdefault(role, set()).add(uid)` from `ConnectionManager.connect`:
add `uid` to the bucket of `role`, creating the bucket if absent. -/
def setdefaultAdd : List (String × List String) → String → String → List (String × List String)
  | [], role, uid => [(role, [uid])]
  | (r, s) :: rest, role, uid =>
    if r = role then (r, setAdd s uid) :: rest
    else (r, s) :: setdefaultAdd rest role uid

/-- The hard-coded staff-role set `_HR_ROLES` used for the `"hr_all"`
broadcast shorthand (a `frozenset` in the source; claims about it are
membership-based, so the iteration order chosen here is immaterial). -/
def _HR_ROLES : List String :=
  ["hr", "hr_admin", "hiring_manager", "recruiter", "superadmin", "admin", "elite_admin"]

/-- The event envelope consumed by `ConnectionManager._dispatch`.
`event.get("target_user_id")` / `event.get("target_role")` yield `None`
(here `none`) when the key is absent; the payload is opaque to routing. -/
structure Event where
  event_type : String
  payload : String
  target_user_id : Option String
  target_role : Option String
deriving DecidableEq

/-- Python truthiness of an optional string: `None` and `""` are falsy
(the `if target_user:` / `elif target_role:` tests in `_dispatch`). -/
def truthy : Option String → Bool
  | none => false
  | some s => decide (s ≠ "")

/-- `ConnectionManager` state: `active_connections` maps `user_id` to its
WebSocket, `role_rooms` maps a role to the set of user ids in that room. -/
structure ConnectionManager where
  active_connections : List (String × WS)
  role_rooms : List (String × List String)
deriving DecidableEq

namespace ConnectionManager

/-- Fresh registry (`ConnectionManager.__init__`). -/
def empty : ConnectionManager := ⟨[], []⟩

/-- The set of user ids registered under `role`
(`self.role_rooms.get(role, set())`). -/
def bucket (m : ConnectionManager) (role : String) : List String :=
  (lookupA m.role_rooms role).getD []

/-- `connect`: accept the transport, then (under the lock) register the
user in `active_connections` and in `role_rooms[role]`. -/
def connect (m : ConnectionManager) (websocket : WS) (user_id role : String) :
    ConnectionManager :=
  { active_connections := updateA m.active_connections user_id websocket
    role_rooms := setdefaultAdd m.role_rooms role user_id }

/-- `disconnect`: under the lock, `active_connections.pop(user_id, None)`
and `users.discard(user_id)` on every role bucket. -/
def disconnect (m : ConnectionManager) (user_id : String) : ConnectionManager :=
  { active_connections := m.active_connections.filter (fun p => decide (p.1 ≠ user_id))
    role_rooms := m.role_rooms.map (fun p => (p.1, p.2.filter (fun u => decide (u ≠ user_id)))) }

/-- `_send`: look the user up; silently return if absent; otherwise write
the envelope to the transport, and on any exception (`ok ws = false`)
clean up via `disconnect`.  Returns the new state and the delivery list
(`[user_id]` exactly when the write succeeded). -/
def _send (m : ConnectionManager) (ok : WS → Bool) (user_id : String) :
    ConnectionManager × List String :=
  match lookupA m.active_connections user_id with
  | none => (m, [])
  | some ws => if ok ws then (m, [user_id]) else (m.disconnect user_id, [])

/-- Sequentially `_send` to each id in `us`, threading the registry state
(the loop bodies of `broadcast_to_role` / `broadcast_to_all`). -/
def sendAll (m : ConnectionManager) (ok : WS → Bool) : List String → ConnectionManager × List String
  | [] => (m, [])
  | u :: rest =>
    let r1 := m._send ok u
    let r2 := r1.1.sendAll ok rest
    (r2.1, r1.2 ++ r2.2)

/-- `broadcast_to_role`: snapshot `role_rooms.get(role, set())`, then send
to each id in the snapshot. -/
def broadcast_to_role (m : ConnectionManager) (ok : WS → Bool) (role : String) :
    ConnectionManager × List String :=
  m.sendAll ok (m.bucket role)

/-- `broadcast_to_user`: a single `_send`. -/
def broadcast_to_user (m : ConnectionManager) (ok : WS → Bool) (user_id : String) :
    ConnectionManager × List String :=
  m._send ok user_id

/-- `broadcast_to_all`: snapshot of `active_connections.keys()`, then send
to each id. -/
def broadcast_to_all (m : ConnectionManager) (ok : WS → Bool) :
    ConnectionManager × List String :=
  m.sendAll ok (m.active_connections.map Prod.fst)

/-- The `for role in _HR_ROLES: broadcast_to_role(role, …)` loop of the
`"hr_all"` branch of `_dispatch`, threading the registry state. -/
def broadcastRoles (m : ConnectionManager) (ok : WS → Bool) :
    List String → ConnectionManager × List String
  | [] => (m, [])
  | r :: rest =>
    let r1 := m.broadcast_to_role ok r
    let r2 := r1.1.broadcastRoles ok rest
    (r2.1, r1.2 ++ r2.2)

/-- `_dispatch`: route one envelope.  `if target_user:` (truthiness),
`elif target_role == "hr_all":`, `elif target_role:`, `else:` — in that
order. -/
def _dispatch (m : ConnectionManager) (ok : WS → Bool) (e : Event) :
    ConnectionManager × List String :=
  if truthy e.target_user_id then
    m.broadcast_to_user ok (e.target_user_id.getD "")
  else if e.target_role = some "hr_all" then
    m.broadcastRoles ok _HR_ROLES
  else if truthy e.target_role then
    m.broadcast_to_role ok (e.target_role.getD "")
  else
    m.broadcast_to_all ok

end ConnectionManager

/-- The registry invariant of the spec: every `user_id` present in any
`role_rooms` bucket is also a key of `active_connections`. -/
def RegistryInv (m : ConnectionManager) : Prop :=
  ∀ p ∈ m.role_rooms, ∀ u ∈ p.2, (lookupA m.active_connections u).isSome = true

instance (m : ConnectionManager) : Decidable (RegistryInv m) := by
  unfold RegistryInv; infer_instance

/-- Total number of occurrences of `u` across all role buckets. -/
def indexCount (m : ConnectionManager) (u : String) : Nat :=
  (m.role_rooms.map (fun p => p.2.count u)).sum

/-- The envelope built by `emit_event` before `redis.publish`. -/
structure OutEvent where
  event_type : String
  payload : String
  target_role : Option String
  target_user_id : Option String
deriving DecidableEq

/-- `emit_event` from `event_emitter.py`.  The whole body sits in a
`try: … except Exception:` block; the broker interaction (`get_redis()`
plus `redis.publish(...)`) is the parameter `publish`, whose
`Except.error` outcome models the call raising.  The first component is
the call's outcome towards its caller (`Except.error` would be an
escaping exception); the second records the envelope that reached the
broker, `none` when publishing failed.  Note the Python truthiness in
`str(target_user_id) if target_user_id else None`: an empty-string
`target_user_id` is turned into `None`. -/
def emit_event (publish : OutEvent → Except String Unit)
    (event_type : String) (payload : String)
    (target_role : Option String) (target_user_id : Option String) :
    Except String Unit × Option OutEvent :=
  let event : OutEvent :=
    { event_type := event_type
      payload := payload
      target_role := target_role
      target_user_id := if truthy target_user_id then target_user_id else none }
  match publish event with
  | Except.ok _ => (Except.ok (), some event)
  | Except.error _ => (Except.ok (), none)

/-- `ChatConnectionManager` state (`chat_manager.py`): only a
`user_id → WebSocket` map, no role index. -/
structure ChatConnectionManager where
  connections : List (String × WS)
deriving DecidableEq

namespace ChatConnectionManager

/-- Fresh chat registry. -/
def empty : ChatConnectionManager := ⟨[]⟩

/-- `disconnect`: `connections.pop(user_id, None)`. -/
def disconnect (m : ChatConnectionManager) (user_id : String) : ChatConnectionManager :=
  ⟨m.connections.filter (fun p => decide (p.1 ≠ user_id))⟩

/-- `send_to_user`: silently return if the user is not connected;
otherwise write to the transport, disconnecting on any exception. -/
def send_to_user (m : ChatConnectionManager) (ok : WS → Bool) (user_id : String) :
    ChatConnectionManager × List String :=
  match lookupA m.connections user_id with
  | none => (m, [])
  | some ws => if ok ws then (m, [user_id]) else (m.disconnect user_id, [])

/-- The fallback loop of `publish_to_recipients`:
`for uid in recipient_ids: await self.send_to_user(uid, …)`. -/
def sendEach (m : ChatConnectionManager) (ok : WS → Bool) :
    List String → ChatConnectionManager × List String
  | [] => (m, [])
  | u :: rest =>
    let r1 := m.send_to_user ok u
    let r2 := r1.1.sendEach ok rest
    (r2.1, r1.2 ++ r2.2)

/-- `publish_to_recipients`: try the broker publish (`pub` is its
outcome); on success do nothing locally; on exception fall back to
direct in-process delivery over `recipient_ids`.  Total: the
`except Exception:` clause swallows the broker error. -/
def publish_to_recipients (m : ChatConnectionManager)
    (pub : Except String Unit) (ok : WS → Bool) (recipient_ids : List String) :
    ChatConnectionManager × List String :=
  match pub with
  | Except.ok _ => (m, [])
  | Except.error _ => m.sendEach ok recipient_ids

end ChatConnectionManager

/-- The claims of a decoded JWT, as read by `_validate_ws_token`
(`payload.get("type")`, `payload.get("sub", "")`, `payload.get("role", "")`;
an absent claim is modelled as `""`, which compares unequal to
`"access"` and is falsy exactly like Python's `None` / default). -/
structure TokenPayload where
  typ : String
  sub : String
  role : String
deriving DecidableEq

/-- `_validate_ws_token` from `routers/ws.py`: `decode_token` may raise
(`Except.error`), which is caught and yields `none`; a non-access type or
a falsy `sub` also yield `none`; otherwise `(user_id, role)`. -/
def _validate_ws_token (decode : String → Except String TokenPayload)
    (token : String) : Option (String × String) :=
  match decode token with
  | Except.error _ => none
  | Except.ok p =>
    if p.typ ≠ "access" then none
    else if p.sub = "" then none
    else some (p.sub, p.role)

/-- Observable transport-level actions of the `/ws` handshake. -/
inductive WsAction where
  | accept
  | close (code : Nat)
  | connected_event (user_id role : String)
deriving DecidableEq

/-- The handshake portion of `websocket_endpoint` (`routers/ws.py`): on
auth failure, accept then immediately close with code 4001 and leave the
registry untouched; on success, `ws_manager.connect` (which performs the
accept) followed by the initial `connected` event.  The subsequent
receive loop and ping task are runtime behaviour beyond the handshake. -/
def websocket_endpoint (decode : String → Except String TokenPayload)
    (token : String) (websocket : WS) (m : ConnectionManager) :
    ConnectionManager × List WsAction :=
  match _validate_ws_token decode token with
  | none => (m, [WsAction.accept, WsAction.close 4001])
  | some (user_id, role) =>
    (m.connect websocket user_id role,
     [WsAction.accept, WsAction.connected_event user_id role])

/-! ### Association-list and set lemmas -/

theorem lookupA_filter_self {α : Type} (l : List (String × α)) (u : String) :
    lookupA (l.filter (fun p => decide (p.1 ≠ u))) u = none := by
  induction l with
  | nil => rfl
  | cons p rest ih =>
    by_cases h : p.1 = u
    · simpa [List.filter_cons, h] using ih
    · simpa [List.filter_cons, h, lookupA] using ih

theorem lookupA_filter_ne {α : Type} (l : List (String × α)) (u u' : String)
    (h : u' ≠ u) :
    lookupA (l.filter (fun p => decide (p.1 ≠ u))) u' = lookupA l u' := by
  induction l with
  | nil => rfl
  | cons p rest ih =>
    obtain ⟨a, b⟩ := p
    rw [List.filter_cons]
    by_cases ha : a = u
    · rw [if_neg (by simp [ha])]
      rw [ih]
      simp only [lookupA]
      rw [if_neg (by rw [ha]; exact Ne.symm h)]
    · rw [if_pos (by simp [ha])]
      simp only [lookupA]
      by_cases hb : a = u'
      · rw [if_pos hb, if_pos hb]
      · rw [if_neg hb, if_neg hb, ih]

theorem lookupA_updateA_self {α : Type} (l : List (String × α)) (k : String) (v : α) :
    lookupA (updateA l k v) k = some v := by
  induction l with
  | nil => simp [updateA, lookupA]
  | cons p rest ih =>
    by_cases h : p.1 = k
    · simp [updateA, h, lookupA]
    · simp [updateA, h, lookupA, ih]

theorem lookupA_updateA_ne {α : Type} (l : List (String × α)) (k k' : String) (v : α)
    (h : k' ≠ k) :
    lookupA (updateA l k v) k' = lookupA l k' := by
  induction l with
  | nil => simp [updateA, lookupA, Ne.symm h]
  | cons p rest ih =>
    obtain ⟨a, b⟩ := p
    simp only [updateA]
    by_cases ha : a = k
    · rw [if_pos ha]
      simp only [lookupA]
      rw [if_neg (Ne.symm h), if_neg (by rw [ha]; exact Ne.symm h)]
    · rw [if_neg ha]
      simp only [lookupA]
      by_cases hb : a = k'
      · rw [if_pos hb, if_pos hb]
      · rw [if_neg hb, if_neg hb, ih]

theorem updateA_updateA {α : Type} (l : List (String × α)) (k : String) (v1 v2 : α) :
    updateA (updateA l k v1) k v2 = updateA l k v2 := by
  induction l with
  | nil => simp [updateA]
  | cons p rest ih =>
    by_cases h : p.1 = k
    · simp [updateA, h]
    · simp [updateA, h, ih]

theorem mem_setAdd (s : List String) (x y : String) :
    y ∈ setAdd s x ↔ y ∈ s ∨ y = x := by
  unfold setAdd
  by_cases h : x ∈ s
  · simp only [if_pos h]
    constructor
    · exact Or.inl
    · rintro (hy | rfl)
      · exact hy
      · exact h
  · simp [if_neg h]

theorem lookupA_isSome_of_mem_keys {α : Type} (l : List (String × α)) (u : String)
    (h : u ∈ l.map Prod.fst) : (lookupA l u).isSome = true := by
  induction l with
  | nil => simp at h
  | cons p rest ih =>
    by_cases hp : p.1 = u
    · simp [lookupA, hp]
    · simp only [List.map_cons, List.mem_cons] at h
      rcases h with h | h
      · exact absurd h.symm hp
      · simp [lookupA, hp, ih h]

theorem mem_keys_of_lookupA_isSome {α : Type} (l : List (String × α)) (u : String)
    (h : (lookupA l u).isSome = true) : u ∈ l.map Prod.fst := by
  induction l with
  | nil => simp [lookupA] at h
  | cons p rest ih =>
    by_cases hp : p.1 = u
    · simp [hp]
    · simp only [lookupA, if_neg hp] at h
      simp [ih h]

theorem filter_idem {α : Type} (p : α → Bool) (l : List α) :
    (l.filter p).filter p = l.filter p := by
  rw [List.filter_filter]
  apply List.filter_congr
  intro a _
  exact Bool.and_self (p a)

/-! ### `disconnect` lemmas -/

namespace ConnectionManager

theorem disconnect_lookup_self (m : ConnectionManager) (u : String) :
    lookupA (m.disconnect u).active_connections u = none :=
  lookupA_filter_self _ _

theorem disconnect_lookup_ne (m : ConnectionManager) (u u' : String) (h : u' ≠ u) :
    lookupA (m.disconnect u).active_connections u' = lookupA m.active_connections u' :=
  lookupA_filter_ne _ _ _ h

theorem disconnect_buckets (m : ConnectionManager) (u : String) :
    ∀ p ∈ (m.disconnect u).role_rooms, u ∉ p.2 := by
  intro p hp hu
  unfold disconnect at hp
  simp only [List.mem_map] at hp
  obtain ⟨q, _, rfl⟩ := hp
  simp only [List.mem_filter, decide_eq_true_eq] at hu
  exact hu.2 rfl

theorem disconnect_idem (m : ConnectionManager) (u : String) :
    (m.disconnect u).disconnect u = m.disconnect u := by
  unfold disconnect
  simp only [mk.injEq, List.map_map]
  constructor
  · exact filter_idem _ _
  · apply List.map_congr_left
    intro p _
    simp [Function.comp, filter_idem]

theorem disconnect_not_registered (m : ConnectionManager) (u : String)
    (h1 : lookupA m.active_connections u = none)
    (h2 : ∀ p ∈ m.role_rooms, u ∉ p.2) :
    m.disconnect u = m := by
  unfold disconnect
  have hk : u ∉ m.active_connections.map Prod.fst := by
    intro hmem
    have := lookupA_isSome_of_mem_keys _ _ hmem
    rw [h1] at this
    simp at this
  cases m with
  | mk ac rr =>
    simp only [mk.injEq]
    constructor
    · rw [List.filter_eq_self]
      intro p hp
      simp only [decide_eq_true_eq]
      intro e
      exact hk (List.mem_map.mpr ⟨p, hp, e⟩)
    · have : ∀ p ∈ rr, (p.1, p.2.filter (fun v => decide (v ≠ u))) = p := by
        intro p hp
        have : p.2.filter (fun v => decide (v ≠ u)) = p.2 := by
          rw [List.filter_eq_self]
          intro a ha
          simp only [decide_eq_true_eq]
          intro e
          exact h2 p hp (e ▸ ha)
        rw [this]
      calc rr.map (fun p => (p.1, p.2.filter (fun v => decide (v ≠ u))))
          = rr.map id := List.map_congr_left this
        _ = rr := List.map_id rr

end ConnectionManager

/-! ### Send and broadcast lemmas -/

namespace ConnectionManager

theorem send_ok_eq (m : ConnectionManager) (ok : WS → Bool) (u : String)
    (h : ∀ w, ok w = true) :
    m._send ok u = (m, if (lookupA m.active_connections u).isSome then [u] else []) := by
  cases hl : lookupA m.active_connections u with
  | none => simp [_send, hl]
  | some ws => simp [_send, hl, h ws]

theorem sendAll_ok_eq (m : ConnectionManager) (ok : WS → Bool) (us : List String)
    (h : ∀ w, ok w = true) :
    m.sendAll ok us = (m, us.filter (fun u => (lookupA m.active_connections u).isSome)) := by
  induction us with
  | nil => simp [sendAll]
  | cons u rest ih =>
    simp only [sendAll]
    rw [send_ok_eq m ok u h]
    by_cases hs : (lookupA m.active_connections u).isSome = true
    · simp [hs, List.filter_cons, ih]
    · simp [hs, List.filter_cons, ih]

theorem broadcast_to_all_ok_eq (m : ConnectionManager) (ok : WS → Bool)
    (h : ∀ w, ok w = true) :
    m.broadcast_to_all ok = (m, m.active_connections.map Prod.fst) := by
  unfold broadcast_to_all
  rw [sendAll_ok_eq m ok _ h]
  congr 1
  rw [List.filter_eq_self]
  intro u hu
  exact lookupA_isSome_of_mem_keys _ _ hu

theorem broadcastRoles_ok_eq (m : ConnectionManager) (ok : WS → Bool)
    (roles : List String) (h : ∀ w, ok w = true) :
    m.broadcastRoles ok roles =
      (m, (roles.map
        (fun r => (m.bucket r).filter
          (fun u => (lookupA m.active_connections u).isSome))).flatten) := by
  induction roles with
  | nil => simp [broadcastRoles]
  | cons r rest ih =>
    simp only [broadcastRoles, broadcast_to_role]
    rw [sendAll_ok_eq m ok _ h]
    simp only [ih, List.map_cons, List.flatten_cons]

end ConnectionManager

/-! ### Membership through `setdefaultAdd` -/

theorem users_setdefaultAdd (rr : List (String × List String)) (role uid : String)
    (p : String × List String) (hp : p ∈ setdefaultAdd rr role uid)
    (u : String) (hu : u ∈ p.2) :
    u = uid ∨ ∃ q ∈ rr, u ∈ q.2 := by
  induction rr with
  | nil =>
    simp only [setdefaultAdd, List.mem_singleton] at hp
    subst hp
    simp only [List.mem_singleton] at hu
    exact Or.inl hu
  | cons q rest ih =>
    obtain ⟨r, s⟩ := q
    simp only [setdefaultAdd] at hp
    by_cases hr : r = role
    · rw [if_pos hr] at hp
      rcases List.mem_cons.mp hp with rfl | hp'
      · rcases (mem_setAdd s uid u).mp hu with h1 | h1
        · exact Or.inr ⟨(r, s), List.mem_cons_self _ _, h1⟩
        · exact Or.inl h1
      · exact Or.inr ⟨p, List.mem_cons_of_mem _ hp', hu⟩
    · rw [if_neg hr] at hp
      rcases List.mem_cons.mp hp with rfl | hp'
      · exact Or.inr ⟨(r, s), List.mem_cons_self _ _, hu⟩
      · rcases ih hp' with h1 | ⟨q', hq', hu'⟩
        · exact Or.inl h1
        · exact Or.inr ⟨q', List.mem_cons_of_mem _ hq', hu'⟩

/-! ### Invariant preservation -/

namespace ConnectionManager

theorem registryInv_connect (m : ConnectionManager) (ws : WS) (uid role : String)
    (h : RegistryInv m) : RegistryInv (m.connect ws uid role) := by
  intro p hp u hu
  have hmem := users_setdefaultAdd m.role_rooms role uid p hp u hu
  rcases hmem with rfl | ⟨q, hq, hu'⟩
  · simp [connect, lookupA_updateA_self]
  · by_cases he : u = uid
    · subst he
      simp [connect, lookupA_updateA_self]
    · have hbase := h q hq u hu'
      simp only [connect]
      rw [lookupA_updateA_ne _ _ _ _ he]
      exact hbase

theorem registryInv_disconnect (m : ConnectionManager) (u0 : String)
    (h : RegistryInv m) : RegistryInv (m.disconnect u0) := by
  intro p hp u hu
  simp only [disconnect, List.mem_map] at hp
  obtain ⟨q, hq, rfl⟩ := hp
  simp only [List.mem_filter, decide_eq_true_eq] at hu
  obtain ⟨hu', hne⟩ := hu
  have hbase := h q hq u hu'
  simp only [disconnect]
  rw [lookupA_filter_ne _ _ _ hne]
  exact hbase

theorem registryInv_send (m : ConnectionManager) (ok : WS → Bool) (u : String)
    (h : RegistryInv m) : RegistryInv (m._send ok u).1 := by
  cases hl : lookupA m.active_connections u with
  | none => simpa [_send, hl] using h
  | some ws =>
    by_cases hw : ok ws = true
    · simpa [_send, hl, hw] using h
    · simpa [_send, hl, hw] using registryInv_disconnect m u h

end ConnectionManager

/-! ### Claim theorems -/

/-- C3: for every behaviour of the broker — including the publish call
raising any error — `emit_event` returns normally to its caller: its
outcome component is always `Except.ok ()`, so no exception propagates
out of `emit_event` and a broker failure cannot affect the caller's
control flow. -/
theorem emit_event_never_raises (publish : OutEvent → Except String Unit)
    (event_type payload : String) (target_role target_user_id : Option String) :
    (emit_event publish event_type payload target_role target_user_id).1
      = Except.ok () := by
  simp only [emit_event]
  split <;> rfl

/-- C6: `disconnect u` leaves `u` absent from `active_connections` and from
every `role_rooms` bucket; `disconnect` is idempotent; and on an id that is
not registered (absent from the connection map and from every bucket) it
completes as a no-op, leaving both structures unchanged. -/
theorem disconnect_removes_idempotent_noop (m : ConnectionManager) (u : String) :
    lookupA (m.disconnect u).active_connections u = none
  ∧ (∀ p ∈ (m.disconnect u).role_rooms, u ∉ p.2)
  ∧ (m.disconnect u).disconnect u = m.disconnect u
  ∧ (lookupA m.active_connections u = none → (∀ p ∈ m.role_rooms, u ∉ p.2) →
      m.disconnect u = m) :=
  ⟨m.disconnect_lookup_self u, m.disconnect_buckets u, m.disconnect_idem u,
   fun h1 h2 => m.disconnect_not_registered u h1 h2⟩

theorem disconnect_removes_idempotent_noop_witness :
    (lookupA (ConnectionManager.mk [("u1", 1)] [("hr", ["u1"])]).active_connections "u2" = none
      ∧ (∀ p ∈ (ConnectionManager.mk [("u1", 1)] [("hr", ["u1"])]).role_rooms, "u2" ∉ p.2))
  ∧ (ConnectionManager.mk [("u1", 1)] [("hr", ["u1"])]).disconnect "u2"
      = ConnectionManager.mk [("u1", 1)] [("hr", ["u1"])]
  ∧ lookupA ((ConnectionManager.mk [("u1", 1)] [("hr", ["u1"])]).disconnect "u1").active_connections "u1"
      = none :=
  ⟨⟨by decide, by decide⟩,
   (disconnect_removes_idempotent_noop (ConnectionManager.mk [("u1", 1)] [("hr", ["u1"])]) "u2").2.2.2
     (by decide) (by decide),
   (disconnect_removes_idempotent_noop (ConnectionManager.mk [("u1", 1)] [("hr", ["u1"])]) "u1").1⟩

/-- C5: if the transport write for a registered user `u` fails, then
immediately afterwards `u` is absent from `active_connections` and from
every role bucket — the failed `_send` performed the `disconnect` itself —
and the failure is not surfaced to the broadcast caller: `_send` returns
normally with an empty delivery list and no error channel. -/
theorem send_failure_removes_user (m : ConnectionManager) (ok : WS → Bool)
    (u : String) (ws : WS)
    (h1 : lookupA m.active_connections u = some ws) (h2 : ok ws = false) :
    (m._send ok u).1 = m.disconnect u
  ∧ lookupA ((m._send ok u).1).active_connections u = none
  ∧ (∀ p ∈ ((m._send ok u).1).role_rooms, u ∉ p.2)
  ∧ (m._send ok u).2 = [] := by
  have he : m._send ok u = (m.disconnect u, []) := by
    simp [ConnectionManager._send, h1, h2]
  rw [he]
  exact ⟨rfl, m.disconnect_lookup_self u, m.disconnect_buckets u, rfl⟩

theorem send_failure_removes_user_witness :
    (lookupA (ConnectionManager.mk [("u1", 1)] [("hr", ["u1"])]).active_connections "u1" = some 1
      ∧ (fun (_ : WS) => false) 1 = false)
  ∧ lookupA (((ConnectionManager.mk [("u1", 1)] [("hr", ["u1"])])._send
        (fun _ => false) "u1").1).active_connections "u1" = none :=
  ⟨⟨by decide, rfl⟩,
   (send_failure_removes_user (ConnectionManager.mk [("u1", 1)] [("hr", ["u1"])])
     (fun _ => false) "u1" 1 (by decide) rfl).2.1⟩

/-- C2: the registry invariant — every user id occurring in any role bucket
is a key of `active_connections` — is preserved by `connect`, by
`disconnect`, and by the disconnect triggered inside a failed `_send`; and
`disconnect` removes the id from the connection map and from every role
bucket together. -/
theorem registry_invariant_preserved (m : ConnectionManager) (ws : WS)
    (uid role u : String) (ok : WS → Bool) (h : RegistryInv m) :
    RegistryInv (m.connect ws uid role)
  ∧ RegistryInv (m.disconnect u)
  ∧ RegistryInv (m._send ok u).1
  ∧ lookupA (m.disconnect u).active_connections u = none
  ∧ (∀ p ∈ (m.disconnect u).role_rooms, u ∉ p.2) :=
  ⟨m.registryInv_connect ws uid role h, m.registryInv_disconnect u h,
   m.registryInv_send ok u h, m.disconnect_lookup_self u, m.disconnect_buckets u⟩

theorem registry_invariant_preserved_witness :
    RegistryInv (ConnectionManager.mk [("u1", 1)] [("hr", ["u1"])])
  ∧ RegistryInv ((ConnectionManager.mk [("u1", 1)] [("hr", ["u1"])]).connect 2 "u2" "candidate") :=
  ⟨by decide,
   (registry_invariant_preserved (ConnectionManager.mk [("u1", 1)] [("hr", ["u1"])])
     2 "u2" "candidate" "u1" (fun _ => true) (by decide)).1⟩

/-- C9: when the credential fails validation, the `/ws` endpoint accepts
the transport and immediately closes it with status code 4001, and the
user never enters the registry: `active_connections` and `role_rooms` are
exactly those of the pre-attempt state. -/
theorem ws_auth_failure_rejected (decode : String → Except String TokenPayload)
    (token : String) (websocket : WS) (m : ConnectionManager)
    (h : _validate_ws_token decode token = none) :
    websocket_endpoint decode token websocket m
      = (m, [WsAction.accept, WsAction.close 4001]) := by
  unfold websocket_endpoint
  rw [h]

theorem ws_auth_failure_rejected_witness :
    _validate_ws_token (fun _ => Except.error "bad signature") "tok" = none
  ∧ websocket_endpoint (fun _ => Except.error "bad signature") "tok" 7
      (ConnectionManager.mk [("u1", 1)] [("hr", ["u1"])])
      = (ConnectionManager.mk [("u1", 1)] [("hr", ["u1"])],
         [WsAction.accept, WsAction.close 4001]) :=
  ⟨rfl,
   ws_auth_failure_rejected (fun _ => Except.error "bad signature") "tok" 7
     (ConnectionManager.mk [("u1", 1)] [("hr", ["u1"])]) rfl⟩

/-! ### Chat-variant send lemmas -/

namespace ChatConnectionManager

theorem send_to_user_ok_eq (m : ChatConnectionManager) (ok : WS → Bool) (u : String)
    (h : ∀ w, ok w = true) :
    m.send_to_user ok u = (m, if (lookupA m.connections u).isSome then [u] else []) := by
  cases hl : lookupA m.connections u with
  | none => simp [send_to_user, hl]
  | some ws => simp [send_to_user, hl, h ws]

theorem sendEach_ok_eq (m : ChatConnectionManager) (ok : WS → Bool) (us : List String)
    (h : ∀ w, ok w = true) :
    m.sendEach ok us = (m, us.filter (fun u => (lookupA m.connections u).isSome)) := by
  induction us with
  | nil => simp [sendEach]
  | cons u rest ih =>
    simp only [sendEach]
    rw [send_to_user_ok_eq m ok u h]
    by_cases hs : (lookupA m.connections u).isSome = true
    · simp [hs, List.filter_cons, ih]
    · simp [hs, List.filter_cons, ih]

end ChatConnectionManager

/-- C4: when the broker publish succeeds, `publish_to_recipients` performs
no local send (state and delivery list untouched); when the publish raises,
it instead runs the direct in-process fallback — one local `send_to_user`
per id in `recipient_ids`, which is exactly `sendEach` — and still returns
normally; with healthy transports the fallback delivers to precisely the
connected recipients. -/
theorem publish_to_recipients_fallback (m : ChatConnectionManager)
    (pub : Except String Unit) (ok : WS → Bool) (rids : List String) :
    (pub = Except.ok () → m.publish_to_recipients pub ok rids = (m, []))
  ∧ (∀ err, pub = Except.error err →
      m.publish_to_recipients pub ok rids = m.sendEach ok rids
      ∧ ((∀ w, ok w = true) →
          (m.publish_to_recipients pub ok rids).2
            = rids.filter (fun u => (lookupA m.connections u).isSome))) := by
  constructor
  · intro hp
    rw [hp]
    rfl
  · intro err hp
    have he : m.publish_to_recipients pub ok rids = m.sendEach ok rids := by
      rw [hp]
      rfl
    refine ⟨he, fun hok => ?_⟩
    rw [he, m.sendEach_ok_eq ok rids hok]

theorem publish_to_recipients_fallback_witness :
    (ChatConnectionManager.mk [("a", 1)]).publish_to_recipients
        (Except.error "down") (fun _ => true) ["a", "b"]
      = (ChatConnectionManager.mk [("a", 1)]).sendEach (fun _ => true) ["a", "b"]
  ∧ ((ChatConnectionManager.mk [("a", 1)]).publish_to_recipients
        (Except.error "down") (fun _ => true) ["a", "b"]).2 = ["a"] := by
  have h := (publish_to_recipients_fallback (ChatConnectionManager.mk [("a", 1)])
    (Except.error "down") (fun _ => true) ["a", "b"]).2 "down" rfl
  refine ⟨h.1, ?_⟩
  rw [h.2 (fun w => rfl)]
  decide

/-- C1: `_dispatch` routes by the stated precedence: a truthy (non-empty)
`target_user_id` always selects `broadcast_to_user` alone, whatever
`target_role` holds; otherwise `target_role = "hr_all"` selects one
`broadcast_to_role` per role of the fixed staff set; otherwise a truthy
`target_role` selects `broadcast_to_role` for that single role; otherwise
the envelope goes through `broadcast_to_all`, which with healthy
transports delivers to every currently-registered id. -/
theorem dispatch_routing_precedence (m : ConnectionManager) (ok : WS → Bool)
    (e : Event) :
    (∀ u, e.target_user_id = some u → u ≠ "" →
      m._dispatch ok e = m.broadcast_to_user ok u)
  ∧ (truthy e.target_user_id = false → e.target_role = some "hr_all" →
      m._dispatch ok e = m.broadcastRoles ok _HR_ROLES)
  ∧ (∀ r, truthy e.target_user_id = false → e.target_role = some r →
      r ≠ "hr_all" → r ≠ "" → m._dispatch ok e = m.broadcast_to_role ok r)
  ∧ (truthy e.target_user_id = false → truthy e.target_role = false →
      m._dispatch ok e = m.broadcast_to_all ok
      ∧ ((∀ w, ok w = true) →
          (m._dispatch ok e).2 = m.active_connections.map Prod.fst)) := by
  refine ⟨?_, ?_, ?_, ?_⟩
  · intro u hu hne
    unfold ConnectionManager._dispatch
    rw [hu]
    simp [truthy, hne]
  · intro h1 h2
    unfold ConnectionManager._dispatch
    rw [if_neg (by simp [h1]), if_pos h2]
  · intro r h1 h2 h3 h4
    unfold ConnectionManager._dispatch
    rw [if_neg (by simp [h1]), if_neg (by rw [h2]; simp [h3]),
        if_pos (by rw [h2]; simp [truthy, h4]), h2]
    rfl
  · intro h1 h2
    have hner : ¬ e.target_role = some "hr_all" := by
      intro hc
      rw [hc] at h2
      exact absurd h2 (by decide)
    have hd : m._dispatch ok e = m.broadcast_to_all ok := by
      unfold ConnectionManager._dispatch
      rw [if_neg (by simp [h1]), if_neg hner, if_neg (by simp [h2])]
    refine ⟨hd, fun hok => ?_⟩
    rw [hd, m.broadcast_to_all_ok_eq ok hok]

theorem dispatch_routing_precedence_witness :
    (ConnectionManager.mk [("u1", 1), ("u2", 2)] [("hr", ["u1"]), ("candidate", ["u2"])])._dispatch
        (fun _ => true) (Event.mk "x" "p" (some "u1") (some "hr"))
      = (ConnectionManager.mk [("u1", 1), ("u2", 2)] [("hr", ["u1"]), ("candidate", ["u2"])]).broadcast_to_user
        (fun _ => true) "u1"
  ∧ ((ConnectionManager.mk [("u1", 1), ("u2", 2)] [("hr", ["u1"]), ("candidate", ["u2"])])._dispatch
        (fun _ => true) (Event.mk "y" "p" none none)).2 = ["u1", "u2"] := by
  constructor
  · exact (dispatch_routing_precedence
      (ConnectionManager.mk [("u1", 1), ("u2", 2)] [("hr", ["u1"]), ("candidate", ["u2"])])
      (fun _ => true) (Event.mk "x" "p" (some "u1") (some "hr"))).1 "u1" rfl (by decide)
  · rw [((dispatch_routing_precedence
      (ConnectionManager.mk [("u1", 1), ("u2", 2)] [("hr", ["u1"]), ("candidate", ["u2"])])
      (fun _ => true) (Event.mk "y" "p" none none)).2.2.2 rfl rfl).2 (fun w => rfl)]
    decide

/-- C10: `_dispatch` treats an empty-string target field like an absent
one: with `target_user_id = some ""` routing is identical to
`target_user_id = none` for every `target_role`; with both targets equal
to the empty string the envelope is broadcast to all connected clients;
and only a non-empty `target_user_id` selects single-user delivery. -/
theorem dispatch_empty_target_user (m : ConnectionManager) (ok : WS → Bool) :
    (∀ et pl tr, m._dispatch ok (Event.mk et pl (some "") tr)
        = m._dispatch ok (Event.mk et pl none tr))
  ∧ (∀ et pl, m._dispatch ok (Event.mk et pl (some "") (some ""))
        = m.broadcast_to_all ok)
  ∧ (∀ et pl tr u, u ≠ "" → m._dispatch ok (Event.mk et pl (some u) tr)
        = m.broadcast_to_user ok u) := by
  have h0 : truthy (some "") = false := by decide
  refine ⟨?_, ?_, ?_⟩
  · intro et pl tr
    simp [ConnectionManager._dispatch, h0, truthy]
  · intro et pl
    have h2 : ¬ ((some "" : Option String) = some "hr_all") := by decide
    simp [ConnectionManager._dispatch, h0, h2]
  · intro et pl tr u hu
    unfold ConnectionManager._dispatch
    simp [truthy, hu]

theorem dispatch_empty_target_user_witness :
    ("u1" : String) ≠ ""
  ∧ (ConnectionManager.mk [("u1", 1)] [("hr", ["u1"])])._dispatch (fun _ => true)
        (Event.mk "x" "p" (some "u1") (some "candidate"))
      = (ConnectionManager.mk [("u1", 1)] [("hr", ["u1"])]).broadcast_to_user
        (fun _ => true) "u1" :=
  ⟨by decide,
   (dispatch_empty_target_user (ConnectionManager.mk [("u1", 1)] [("hr", ["u1"])])
     (fun _ => true)).2.2 "x" "p" (some "candidate") "u1" (by decide)⟩

/-- C8: with healthy transports, dispatching an envelope whose
`target_role` is `"hr_all"` and whose `target_user_id` is not (truthily)
set delivers a send to every connected id registered under any role of the
fixed staff set `_HR_ROLES`, and to no id that sits in no staff-role
bucket. -/
theorem dispatch_hr_all_staff_coverage (m : ConnectionManager) (ok : WS → Bool)
    (e : Event) (hok : ∀ w, ok w = true)
    (h1 : truthy e.target_user_id = false) (h2 : e.target_role = some "hr_all") :
    (∀ u r, r ∈ _HR_ROLES → u ∈ m.bucket r →
        (lookupA m.active_connections u).isSome = true → u ∈ (m._dispatch ok e).2)
  ∧ (∀ u, (∀ r ∈ _HR_ROLES, u ∉ m.bucket r) → u ∉ (m._dispatch ok e).2) := by
  have hd : m._dispatch ok e = m.broadcastRoles ok _HR_ROLES := by
    unfold ConnectionManager._dispatch
    rw [if_neg (by simp [h1]), if_pos h2]
  rw [hd, m.broadcastRoles_ok_eq ok _HR_ROLES hok]
  dsimp only
  constructor
  · intro u r hr hb hs
    refine List.mem_flatten.mpr
      ⟨(m.bucket r).filter (fun v => (lookupA m.active_connections v).isSome),
       List.mem_map.mpr ⟨r, hr, rfl⟩, ?_⟩
    exact List.mem_filter.mpr ⟨hb, hs⟩
  · intro u hnone hmem
    rcases List.mem_flatten.mp hmem with ⟨l, hl, hul⟩
    rcases List.mem_map.mp hl with ⟨r, hr, rfl⟩
    exact hnone r hr (List.mem_filter.mp hul).1

theorem dispatch_hr_all_staff_coverage_witness :
    "u1" ∈ ((ConnectionManager.mk [("u1", 1), ("u2", 2)]
        [("hr", ["u1"]), ("candidate", ["u2"])])._dispatch (fun _ => true)
        (Event.mk "x" "p" none (some "hr_all"))).2
  ∧ "u2" ∉ ((ConnectionManager.mk [("u1", 1), ("u2", 2)]
        [("hr", ["u1"]), ("candidate", ["u2"])])._dispatch (fun _ => true)
        (Event.mk "x" "p" none (some "hr_all"))).2 :=
  ⟨(dispatch_hr_all_staff_coverage (ConnectionManager.mk [("u1", 1), ("u2", 2)]
      [("hr", ["u1"]), ("candidate", ["u2"])]) (fun _ => true)
      (Event.mk "x" "p" none (some "hr_all")) (fun w => rfl) rfl rfl).1
      "u1" "hr" (by decide) (by decide) (by decide),
   (dispatch_hr_all_staff_coverage (ConnectionManager.mk [("u1", 1), ("u2", 2)]
      [("hr", ["u1"]), ("candidate", ["u2"])]) (fun _ => true)
      (Event.mk "x" "p" none (some "hr_all")) (fun w => rfl) rfl rfl).2
      "u2" (by decide)⟩

/-! ### Counting lemmas for the role index -/

theorem count_setAdd_fresh (s : List String) (u : String) (h : u ∉ s) :
    (setAdd s u).count u = 1 := by
  unfold setAdd
  rw [if_neg h, List.count_append, List.count_eq_zero.mpr h]
  simp

theorem count_setAdd_le_one (s : List String) (u : String)
    (h : s.count u ≤ 1) : (setAdd s u).count u ≤ 1 := by
  unfold setAdd
  by_cases hm : u ∈ s
  · rw [if_pos hm]
    exact h
  · rw [if_neg hm, List.count_append, List.count_eq_zero.mpr hm]
    simp

theorem roomsSum_fresh (rr : List (String × List String)) (u : String)
    (h : ∀ p ∈ rr, u ∉ p.2) :
    (rr.map (fun p => p.2.count u)).sum = 0 := by
  induction rr with
  | nil => rfl
  | cons q rest ih =>
    simp only [List.map_cons, List.sum_cons]
    rw [List.count_eq_zero.mpr (h q (List.mem_cons_self _ _)),
        ih (fun p hp => h p (List.mem_cons_of_mem _ hp))]

theorem roomsSum_setdefaultAdd_fresh (rr : List (String × List String))
    (r u : String) (h : ∀ p ∈ rr, u ∉ p.2) :
    ((setdefaultAdd rr r u).map (fun p => p.2.count u)).sum = 1 := by
  induction rr with
  | nil => simp [setdefaultAdd]
  | cons q rest ih =>
    obtain ⟨a, s⟩ := q
    simp only [setdefaultAdd]
    by_cases ha : a = r
    · rw [if_pos ha]
      simp only [List.map_cons, List.sum_cons]
      rw [count_setAdd_fresh s u (h (a, s) (List.mem_cons_self _ _)),
          roomsSum_fresh rest u (fun p hp => h p (List.mem_cons_of_mem _ hp))]
    · rw [if_neg ha]
      simp only [List.map_cons, List.sum_cons]
      rw [List.count_eq_zero.mpr (h (a, s) (List.mem_cons_self _ _)),
          ih (fun p hp => h p (List.mem_cons_of_mem _ hp))]

theorem lookupA_setdefaultAdd_self (rr : List (String × List String))
    (r u : String) :
    lookupA (setdefaultAdd rr r u) r = some (setAdd ((lookupA rr r).getD []) u) := by
  induction rr with
  | nil => simp [setdefaultAdd, lookupA, setAdd]
  | cons q rest ih =>
    obtain ⟨a, s⟩ := q
    simp only [setdefaultAdd]
    by_cases ha : a = r
    · rw [if_pos ha]
      simp [lookupA, ha]
    · rw [if_neg ha]
      simp [lookupA, ha, ih]

theorem setdefaultAdd_already (rr : List (String × List String))
    (r u : String) (s : List String)
    (hl : lookupA rr r = some s) (hu : u ∈ s) :
    setdefaultAdd rr r u = rr := by
  induction rr with
  | nil => simp [lookupA] at hl
  | cons q rest ih =>
    obtain ⟨a, t⟩ := q
    simp only [setdefaultAdd]
    by_cases ha : a = r
    · rw [if_pos ha]
      simp only [lookupA, if_pos ha] at hl
      have ht : t = s := Option.some.inj hl
      subst ht
      rw [setAdd, if_pos hu]
    · rw [if_neg ha]
      simp only [lookupA, if_neg ha] at hl
      rw [ih hl]

theorem count_le_one_setdefaultAdd (rr : List (String × List String))
    (r u : String) (h : ∀ p ∈ rr, p.2.count u ≤ 1) :
    ∀ p ∈ setdefaultAdd rr r u, p.2.count u ≤ 1 := by
  induction rr with
  | nil =>
    intro p hp
    simp only [setdefaultAdd, List.mem_singleton] at hp
    subst hp
    simp
  | cons q rest ih =>
    obtain ⟨a, s⟩ := q
    intro p hp
    simp only [setdefaultAdd] at hp
    by_cases ha : a = r
    · rw [if_pos ha] at hp
      rcases List.mem_cons.mp hp with rfl | hp'
      · exact count_setAdd_le_one s u (h (a, s) (List.mem_cons_self _ _))
      · exact h p (List.mem_cons_of_mem _ hp')
    · rw [if_neg ha] at hp
      rcases List.mem_cons.mp hp with rfl | hp'
      · exact h (a, s) (List.mem_cons_self _ _)
      · exact ih (fun q hq => h q (List.mem_cons_of_mem _ hq)) p hp'

/-! ### Key lemmas for `updateA` -/

theorem keys_updateA {α : Type} (l : List (String × α)) (k : String) (v : α) :
    (updateA l k v).map Prod.fst
      = if k ∈ l.map Prod.fst then l.map Prod.fst else l.map Prod.fst ++ [k] := by
  induction l with
  | nil => simp [updateA]
  | cons p rest ih =>
    obtain ⟨a, b⟩ := p
    simp only [updateA]
    by_cases ha : a = k
    · rw [if_pos ha]
      simp [ha]
    · rw [if_neg ha]
      simp only [List.map_cons]
      rw [ih]
      by_cases hk : k ∈ rest.map Prod.fst
      · rw [if_pos hk, if_pos (List.mem_cons_of_mem _ hk)]
      · rw [if_neg hk, if_neg ?_]
        · rfl
        · intro hc
          rcases List.mem_cons.mp hc with hc' | hc'
          · exact ha hc'.symm
          · exact hk hc'

theorem updateA_self_unique {α : Type} (l : List (String × α)) (k : String) (v : α)
    (h : (l.map Prod.fst).Nodup) :
    ∀ w, (k, w) ∈ updateA l k v → w = v := by
  induction l with
  | nil =>
    intro w hw
    simp only [updateA, List.mem_singleton, Prod.mk.injEq] at hw
    exact hw.2
  | cons p rest ih =>
    obtain ⟨a, b⟩ := p
    intro w hw
    simp only [updateA] at hw
    by_cases ha : a = k
    · rw [if_pos ha] at hw
      rcases List.mem_cons.mp hw with he | hw'
      · exact (Prod.mk.injEq _ _ _ _ ▸ he).2
      · exfalso
        simp only [List.map_cons, List.nodup_cons] at h
        exact (ha ▸ h.1) (List.mem_map.mpr ⟨(k, w), hw', rfl⟩)
    · rw [if_neg ha] at hw
      rcases List.mem_cons.mp hw with he | hw'
      · exact absurd (congrArg Prod.fst he).symm ha
      · simp only [List.map_cons, List.nodup_cons] at h
        exact ih h.2 w hw'

/-! ### C7: counterexample and amended claim -/

/-- C7 counterexample: starting from the empty registry, two consecutive
`connect` calls for `"u1"` — first with role `"hr"`, then with role
`"candidate"` — leave `"u1"` in both role buckets: the role index contains
the id twice, not exactly once, refuting the claim for differing role
arguments. -/
theorem reconnect_two_roles_counterexample :
    indexCount ((ConnectionManager.empty.connect 1 "u1" "hr").connect 2 "u1" "candidate") "u1" = 2
  ∧ ¬ indexCount ((ConnectionManager.empty.connect 1 "u1" "hr").connect 2 "u1" "candidate") "u1" = 1 := by
  decide

/-- C7 (amended): after two consecutive `connect` calls with the same
user id (from a well-keyed state in which the id is in no bucket yet),
`active_connections` holds only the second connection for that id; no
single role bucket ever contains the id more than once; and when both
calls use the same role argument the role index overall contains the id
exactly once.  With two different role arguments the id remains in both
roles' buckets (see the counterexample): the stale first-role entry is the
only deviation from the original claim. -/
theorem reconnect_same_user_replaces (m : ConnectionManager) (ws1 ws2 : WS)
    (u r1 r2 : String)
    (hkeys : (m.active_connections.map Prod.fst).Nodup)
    (hfresh : ∀ p ∈ m.role_rooms, u ∉ p.2) :
    lookupA ((m.connect ws1 u r1).connect ws2 u r2).active_connections u = some ws2
  ∧ (∀ w, (u, w) ∈ ((m.connect ws1 u r1).connect ws2 u r2).active_connections → w = ws2)
  ∧ (∀ p ∈ ((m.connect ws1 u r1).connect ws2 u r2).role_rooms, p.2.count u ≤ 1)
  ∧ (r1 = r2 → indexCount ((m.connect ws1 u r1).connect ws2 u r2) u = 1) := by
  have hac : ((m.connect ws1 u r1).connect ws2 u r2).active_connections
      = updateA m.active_connections u ws2 := by
    simp only [ConnectionManager.connect]
    exact updateA_updateA m.active_connections u ws1 ws2
  have hrr : ((m.connect ws1 u r1).connect ws2 u r2).role_rooms
      = setdefaultAdd (setdefaultAdd m.role_rooms r1 u) r2 u := rfl
  refine ⟨?_, ?_, ?_, ?_⟩
  · rw [hac]
    exact lookupA_updateA_self m.active_connections u ws2
  · intro w hw
    rw [hac] at hw
    exact updateA_self_unique m.active_connections u ws2 hkeys w hw
  · rw [hrr]
    have base : ∀ p ∈ m.role_rooms, p.2.count u ≤ 1 := by
      intro p hp
      rw [List.count_eq_zero.mpr (hfresh p hp)]
      exact Nat.zero_le 1
    exact count_le_one_setdefaultAdd _ r2 u (count_le_one_setdefaultAdd _ r1 u base)
  · intro hr
    subst hr
    have hmem : u ∈ setAdd ((lookupA m.role_rooms r1).getD []) u :=
      (mem_setAdd _ u u).mpr (Or.inr rfl)
    have hsecond : setdefaultAdd (setdefaultAdd m.role_rooms r1 u) r1 u
        = setdefaultAdd m.role_rooms r1 u :=
      setdefaultAdd_already _ r1 u _ (lookupA_setdefaultAdd_self m.role_rooms r1 u) hmem
    show (((m.connect ws1 u r1).connect ws2 u r1).role_rooms.map (fun p => p.2.count u)).sum = 1
    rw [hrr, hsecond]
    exact roomsSum_setdefaultAdd_fresh m.role_rooms r1 u hfresh

theorem reconnect_same_user_replaces_witness :
    lookupA ((ConnectionManager.empty.connect 1 "u1" "hr").connect 2 "u1" "hr").active_connections "u1"
      = some 2
  ∧ indexCount ((ConnectionManager.empty.connect 1 "u1" "hr").connect 2 "u1" "hr") "u1" = 1 :=
  ⟨(reconnect_same_user_replaces ConnectionManager.empty 1 2 "u1" "hr" "hr"
      (by decide) (by decide)).1,
   (reconnect_same_user_replaces ConnectionManager.empty 1 2 "u1" "hr" "hr"
      (by decide) (by decide)).2.2.2 rfl⟩
